import Mathlib

/-!
Shallow embedding of the GenericPacketParser decode engine
(src/genericpacketparser.h) and proofs about it.

Modelling conventions:
* the physical buffer `_data` is a total function `Nat → Nat` giving the byte
  at each index (the C++ pointer may address bytes beyond the declared
  length, so reads past the declared length still return a byte);
* the declared length `_length` and the cursor `_offset` are naturals;
* `reinterpret_cast` reads of a `w`-byte scalar are modelled as the
  little-endian (host native order) value of the `w` bytes at the cursor;
* every byte access of `_data` is recorded as a `read` event and every
  setter invocation as a `deliver` event, so that theorems can speak about
  reads and delivery calls;
* release-build semantics: `assert` is a no-op, so the `BinaryField` and
  `StaticFieldArray` branches fall through to `UnhandledFieldType`.
-/

namespace GenericPacketParser

/-- Error identifiers, one constructor per enumerator of the C++
`PacketParserErrorId`. -/
inductive PacketParserErrorId where
  | NoError
  | InvalidText
  | InvalidValue
  | MissingNullTerminator
  | EmptyTextNotAllowed
  | ExceededDataRange
  | UnhandledFieldType
  | Unknown
deriving DecidableEq, Repr

/-- EndiannessInverter<T, 2>::call. -/
def EndiannessInverter.call2 (value : Nat) : Nat :=
  ((value <<< 8) &&& 0xff00)
    ||| ((value >>> 8) &&& 0x00ff)

/-- EndiannessInverter<T, 4>::call. -/
def EndiannessInverter.call4 (value : Nat) : Nat :=
  ((value <<< 24) &&& 0xff000000)
    ||| ((value <<< 8) &&& 0x00ff0000)
    ||| ((value >>> 8) &&& 0x0000ff00)
    ||| ((value >>> 24) &&& 0x000000ff)

/-- EndiannessInverter<T, 8>::call. -/
def EndiannessInverter.call8 (value : Nat) : Nat :=
  ((value <<< 56) &&& 0xff00000000000000)
    ||| ((value <<< 40) &&& 0x00ff000000000000)
    ||| ((value <<< 24) &&& 0x0000ff0000000000)
    ||| ((value <<< 8) &&& 0x000000ff00000000)
    ||| ((value >>> 8) &&& 0x00000000ff000000)
    ||| ((value >>> 24) &&& 0x0000000000ff0000)
    ||| ((value >>> 40) &&& 0x000000000000ff00)
    ||| ((value >>> 56) &&& 0x00000000000000ff)

/-- Dispatch of `EndiannessInverter<T>::call` on `sizeof(T)`.  The C++
template is only instantiable at sizes 2, 4 and 8 (other sizes are a
compile error), so the default branch is never reached by a grammar that
compiles. -/
def invertForWidth (width value : Nat) : Nat :=
  match width with
  | 2 => EndiannessInverter.call2 value
  | 4 => EndiannessInverter.call4 value
  | 8 => EndiannessInverter.call8 value
  | _ => value

/-- Grammar tree: one constructor per implemented C++ field template.
`valueField` keeps `sizeof(ValueType)` and the `InvertEndianness` flag,
`textField` keeps `maxLength` and `AllowEmpty`, `multiField` keeps the
ordered child tuple, `dynamicFieldArray` keeps `sizeof(ArraySizeType)`
and the repeated child, `staticFieldArray` keeps its length and child. -/
inductive Field where
  | valueField (width : Nat) (invertEndianness : Bool)
  | textField (maxLength : Nat) (allowEmpty : Bool)
  | binaryField
  | multiField (children : List Field)
  | dynamicFieldArray (sizeWidth : Nat) (child : Field)
  | staticFieldArray (arrayLength : Nat) (child : Field)
deriving Repr

/-- Value passed to a setter: a scalar, a text (the bytes before the
terminator), or a fully populated intermediary output of a MultiField
(the ordered list of values delivered into it). -/
inductive DeliveredValue where
  | num (v : Nat)
  | text (bytes : List Nat)
  | obj (parts : List DeliveredValue)
deriving Repr

/-- Observable step of a decode run: a byte access `_data[i]`, or a
setter invocation with its argument. -/
inductive Event where
  | read (i : Nat)
  | deliver (v : DeliveredValue)
deriving Repr

/-- Result of processing a field (or a field sequence): final cursor,
error slot value, values delivered to this level's output object,
flat trace of all reads and setter calls (nested levels included),
number of field-processing steps, and the sum of the decoded
DynamicFieldArray counts. -/
structure StepOut where
  offset : Nat
  error : PacketParserErrorId
  delivered : List DeliveredValue
  events : List Event
  cost : Nat
  iters : Nat
deriving Repr

/-- Little-endian value of the `w` bytes starting at `offset`
(the model of `*reinterpret_cast<const T*>(&_data[_offset])` on a
little-endian host). -/
def readLE (data : Nat → Nat) : Nat → Nat → Nat
  | _, 0 => 0
  | offset, w + 1 => data offset + 256 * readLE data (offset + 1) w

/-- Read events for the `w` bytes starting at `offset`. -/
def readEvents (offset w : Nat) : List Event :=
  (List.range w).map (fun j => Event.read (offset + j))

/-- Result of `rangeContainsNullTerminator`: return value, the
`nullTerminatorDistance` out-parameter, the error out-parameter
(`NoError` when the function left it untouched), and the indices of the
bytes it actually read. -/
structure ScanOut where
  found : Bool
  dist : Nat
  error : PacketParserErrorId
  reads : List Nat
deriving Repr

/-- Loop body of `rangeContainsNullTerminator`, iterating `i` upwards
while `i < endOffset`; `remaining` is `endOffset - i`.  Mirrors the C++
exactly: the bound check is `i > _length` (strict), performed before the
byte at `i` is read. -/
def scanLoop (data : Nat → Nat) (length : Nat) : Nat → Nat → Nat → ScanOut
  | 0, _, dist => ⟨false, dist, .NoError, []⟩
  | remaining + 1, i, dist =>
    if length < i then
      ⟨false, dist, .ExceededDataRange, []⟩
    else if data i = 0 then
      ⟨true, dist + 1, .NoError, [i]⟩
    else
      let r := scanLoop data length remaining (i + 1) (dist + 1)
      ⟨r.found, r.dist, r.error, i :: r.reads⟩

/-- PacketParser::rangeContainsNullTerminator(beginOffset, endOffset,
nullTerminatorDistance, error). -/
def rangeContainsNullTerminator (data : Nat → Nat) (length beginOffset endOffset : Nat) :
    ScanOut :=
  scanLoop data length (endOffset - beginOffset) beginOffset 0

/-- Result of `processField` when the sticky error suppresses the field:
nothing read, nothing delivered, cursor unchanged, one skipped step. -/
def skipOut (offset : Nat) (err : PacketParserErrorId) : StepOut :=
  ⟨offset, err, [], [], 1, 0⟩

/-- Sequencing of two step results: the cursor and error of the second,
concatenated deliveries, events and counters. -/
def seqOut (r r2 : StepOut) : StepOut :=
  ⟨r2.offset, r2.error, r.delivered ++ r2.delivered, r.events ++ r2.events,
    r.cost + r2.cost, r.iters + r2.iters⟩

/-- Count a field-processing step. -/
def bump (r : StepOut) : StepOut :=
  { r with cost := r.cost + 1 }

/-- The `for (size_t i = 0; i < arraySize; ++i) processField(...)` loop of
the DynamicFieldArray branch: `step` is the processing of the repeated
child against the shared offset and the shared (sticky) error slot. -/
def dynLoopAux (step : Nat → PacketParserErrorId → StepOut) :
    Nat → Nat → PacketParserErrorId → StepOut
  | 0, offset, err => ⟨offset, err, [], [], 0, 0⟩
  | n + 1, offset, err =>
    let r := step offset err
    seqOut r (dynLoopAux step n r.offset r.error)

mutual

/-- PacketParser::processBinary, one branch per `FieldTypeId`.  The
incoming error slot is `NoError` (guaranteed by the `processField`
guard), so only the produced error value is returned. -/
def processBinary (data : Nat → Nat) (length : Nat) : Field → Nat → StepOut
  | .valueField w inv, offset =>
    -- the bytes are read and the setter invoked BEFORE the range check
    let raw := readLE data offset w
    let v := if inv then invertForWidth w raw else raw
    let offset' := offset + w
    ⟨offset',
      if length < offset' then .ExceededDataRange else .NoError,
      [.num v],
      readEvents offset w ++ [.deliver (.num v)],
      0, 0⟩
  | .textField maxLength allowEmpty, offset =>
    let s := rangeContainsNullTerminator data length offset (offset + maxLength)
    if s.found = false then
      ⟨offset,
        if s.error = .NoError then .MissingNullTerminator else s.error,
        [], s.reads.map Event.read, 0, 0⟩
    else if allowEmpty = false ∧ s.dist = 1 then
      ⟨offset, .EmptyTextNotAllowed, [], s.reads.map Event.read, 0, 0⟩
    else
      let txt := (List.range (s.dist - 1)).map (fun j => data (offset + j))
      ⟨offset + s.dist, .NoError, [.text txt],
        s.reads.map Event.read ++ [.deliver (.text txt)], 0, 0⟩
  | .binaryField, offset =>
    -- release build: the assert is a no-op and control falls through
    ⟨offset, .UnhandledFieldType, [], [], 0, 0⟩
  | .multiField children, offset =>
    let r := processFields data length children offset .NoError
    if r.error = .NoError then
      ⟨r.offset, .NoError, [.obj r.delivered],
        r.events ++ [.deliver (.obj r.delivered)], r.cost, r.iters⟩
    else
      ⟨r.offset, r.error, [], r.events, r.cost, r.iters⟩
  | .dynamicFieldArray w child, offset =>
    -- the size prefix is read BEFORE the range check
    let count := readLE data offset w
    let offset' := offset + w
    if length < offset' then
      ⟨offset', .ExceededDataRange, [], readEvents offset w, 0, 0⟩
    else
      let r := dynLoopAux
        (fun o e =>
          if e = .NoError then bump (processBinary data length child o)
          else skipOut o e)
        count offset' .NoError
      ⟨r.offset, r.error, r.delivered, readEvents offset w ++ r.events,
        r.cost, count + r.iters⟩
  | .staticFieldArray _ _, offset =>
    ⟨offset, .UnhandledFieldType, [], [], 0, 0⟩

/-- Fold shared by PacketParser::processAllFields and
PacketParser::processMultiField: process the fields left to right,
threading the cursor and the sticky error slot. -/
def processFields (data : Nat → Nat) (length : Nat) :
    List Field → Nat → PacketParserErrorId → StepOut
  | [], offset, err => ⟨offset, err, [], [], 0, 0⟩
  | f :: rest, offset, err =>
    let r :=
      if err = .NoError then bump (processBinary data length f offset)
      else skipOut offset err
    seqOut r (processFields data length rest r.offset r.error)

end

/-- PacketParser::processField: skip the field whenever the sticky error
slot already holds an error, otherwise dispatch to `processBinary`. -/
def processField (data : Nat → Nat) (length : Nat) (f : Field) (offset : Nat)
    (err : PacketParserErrorId) : StepOut :=
  if err = .NoError then bump (processBinary data length f offset)
  else skipOut offset err

/-- The PacketParser object: the immutable field tuple plus the working
values `_data`, `_length`, `_offset`. -/
structure PacketParser where
  fields : List Field
  data : Nat → Nat
  length : Nat
  offset : Nat

/-- makePacketParser / the PacketParser constructor: `_data = nullptr`
(modelled as the all-zero buffer), `_length = 0`, `_offset = 0`. -/
def makePacketParser (fields : List Field) : PacketParser :=
  ⟨fields, fun _ => 0, 0, 0⟩

/-- PacketParser::parse: reset the working values, then process all
fields.  Returns the decode result together with the parser object as it
is left after the call. -/
def PacketParser.parse (p : PacketParser) (data : Nat → Nat) (length : Nat) :
    StepOut × PacketParser :=
  let r := processFields data length p.fields 0 .NoError
  (r, ⟨p.fields, data, length, r.offset⟩)

mutual

/-- Number of nodes of a grammar tree. -/
def nodeCount : Field → Nat
  | .valueField _ _ => 1
  | .textField _ _ => 1
  | .binaryField => 1
  | .multiField children => 1 + nodeCountList children
  | .dynamicFieldArray _ child => 1 + nodeCount child
  | .staticFieldArray _ child => 1 + nodeCount child

/-- Number of nodes of a grammar forest. -/
def nodeCountList : List Field → Nat
  | [] => 0
  | f :: rest => nodeCount f + nodeCountList rest

end

-- =====================================================================
-- Byte-order inversion: testBit characterizations and involution lemmas
-- =====================================================================

theorem testBit_byteMask (m i y : Nat) :
    (y &&& ((2 ^ 8 - 1) <<< m)).testBit i
      = (y.testBit i && (decide (m ≤ i) && decide (i < m + 8))) := by
  simp only [Nat.testBit_and, Nat.testBit_shiftLeft, Nat.testBit_two_pow_sub_one]
  by_cases h : m ≤ i
  · have h2 : (i - m < 8) = (i < m + 8) := by
      apply propext; omega
    simp [h, h2]
  · simp [h]

theorem testBit_call2 (y i : Nat) :
    (EndiannessInverter.call2 y).testBit i
      = (if i < 8 then y.testBit (i + 8)
         else if i < 16 then y.testBit (i - 8)
         else false) := by
  have e1 : (0xff00 : Nat) = (2 ^ 8 - 1) <<< 8 := by decide
  have e2 : (0x00ff : Nat) = (2 ^ 8 - 1) <<< 0 := by decide
  unfold EndiannessInverter.call2
  rw [e1, e2]
  simp only [Nat.testBit_or, testBit_byteMask, Nat.testBit_shiftLeft,
    Nat.testBit_shiftRight]
  rcases Nat.lt_or_ge i 8 with h | h
  · have h1 : ¬ (8 ≤ i) := by omega
    simp [h, h1, Nat.add_comm 8 i]
  · rcases Nat.lt_or_ge i 16 with h2 | h2
    · have h3 : ¬ (i < 8) := by omega
      simp [h, h2, h3]
    · have h3 : ¬ (i < 8) := by omega
      have h4 : ¬ (i < 16) := by omega
      have h5 : ¬ (i < 0 + 8) := by omega
      simp [h, h3, h4, h5]

theorem call2_involution (x : Nat) (hx : x < 2 ^ 16) :
    EndiannessInverter.call2 (EndiannessInverter.call2 x) = x := by
  apply Nat.eq_of_testBit_eq
  intro i
  rw [testBit_call2]
  simp only [testBit_call2]
  split_ifs with h1 h2 h3 h4 h5 <;> try omega
  all_goals try (congr 1 <;> omega)
  all_goals
    (symm
     exact Nat.testBit_lt_two_pow
       (lt_of_lt_of_le hx (Nat.pow_le_pow_right (by omega : 0 < 2) (by omega : 16 ≤ i))))

theorem testBit_call4 (y i : Nat) :
    (EndiannessInverter.call4 y).testBit i
      = (if i < 8 then y.testBit (i + 24)
         else if i < 16 then y.testBit (i + 8)
         else if i < 24 then y.testBit (i - 8)
         else if i < 32 then y.testBit (i - 24)
         else false) := by
  have e1 : (0xff000000 : Nat) = (2 ^ 8 - 1) <<< 24 := by decide
  have e2 : (0x00ff0000 : Nat) = (2 ^ 8 - 1) <<< 16 := by decide
  have e3 : (0x0000ff00 : Nat) = (2 ^ 8 - 1) <<< 8 := by decide
  have e4 : (0x000000ff : Nat) = (2 ^ 8 - 1) <<< 0 := by decide
  unfold EndiannessInverter.call4
  rw [e1, e2, e3, e4]
  simp only [Nat.testBit_or, testBit_byteMask, Nat.testBit_shiftLeft,
    Nat.testBit_shiftRight]
  rcases Nat.lt_or_ge i 8 with h1 | h1
  · simp [show i < 8 from h1, show ¬(8 ≤ i) from by omega,
      show ¬(16 ≤ i) from by omega, show ¬(24 ≤ i) from by omega,
      Nat.add_comm 24 i]
  · rcases Nat.lt_or_ge i 16 with h2 | h2
    · simp [show ¬(i < 8) from by omega, show (8 ≤ i) from h1,
        show i < 16 from h2, show ¬(16 ≤ i) from by omega,
        show ¬(24 ≤ i) from by omega, Nat.add_comm 8 i]
    · rcases Nat.lt_or_ge i 24 with h3 | h3
      · simp [show ¬(i < 8) from by omega, show ¬(i < 16) from by omega,
          show (8 ≤ i) from by omega, show (16 ≤ i) from h2,
          show i < 24 from h3, show ¬(24 ≤ i) from by omega]
      · rcases Nat.lt_or_ge i 32 with h4 | h4
        · simp [show ¬(i < 8) from by omega, show ¬(i < 16) from by omega,
            show ¬(i < 24) from by omega, show (24 ≤ i) from h3,
            show i < 32 from h4, show ¬(i < 0 + 8) from by omega,
            show ¬(i < 8 + 8) from by omega, show ¬(i < 16 + 8) from by omega]
        · simp [show ¬(i < 8) from by omega, show ¬(i < 16) from by omega,
            show ¬(i < 24) from by omega, show ¬(i < 32) from by omega,
            show ¬(i < 0 + 8) from by omega, show ¬(i < 8 + 8) from by omega,
            show ¬(i < 16 + 8) from by omega, show ¬(i < 24 + 8) from by omega]

theorem call4_involution (x : Nat) (hx : x < 2 ^ 32) :
    EndiannessInverter.call4 (EndiannessInverter.call4 x) = x := by
  apply Nat.eq_of_testBit_eq
  intro i
  rw [testBit_call4]
  simp only [testBit_call4]
  split_ifs <;> try omega
  all_goals try (congr 1 <;> omega)
  all_goals
    (symm
     exact Nat.testBit_lt_two_pow
       (lt_of_lt_of_le hx (Nat.pow_le_pow_right (by omega : 0 < 2) (by omega : 32 ≤ i))))

theorem testBit_call8 (y i : Nat) :
    (EndiannessInverter.call8 y).testBit i
      = (if i < 8 then y.testBit (i + 56)
         else if i < 16 then y.testBit (i + 40)
         else if i < 24 then y.testBit (i + 24)
         else if i < 32 then y.testBit (i + 8)
         else if i < 40 then y.testBit (i - 8)
         else if i < 48 then y.testBit (i - 24)
         else if i < 56 then y.testBit (i - 40)
         else if i < 64 then y.testBit (i - 56)
         else false) := by
  have e1 : (0xff00000000000000 : Nat) = (2 ^ 8 - 1) <<< 56 := by decide
  have e2 : (0x00ff000000000000 : Nat) = (2 ^ 8 - 1) <<< 48 := by decide
  have e3 : (0x0000ff0000000000 : Nat) = (2 ^ 8 - 1) <<< 40 := by decide
  have e4 : (0x000000ff00000000 : Nat) = (2 ^ 8 - 1) <<< 32 := by decide
  have e5 : (0x00000000ff000000 : Nat) = (2 ^ 8 - 1) <<< 24 := by decide
  have e6 : (0x0000000000ff0000 : Nat) = (2 ^ 8 - 1) <<< 16 := by decide
  have e7 : (0x000000000000ff00 : Nat) = (2 ^ 8 - 1) <<< 8 := by decide
  have e8 : (0x00000000000000ff : Nat) = (2 ^ 8 - 1) <<< 0 := by decide
  unfold EndiannessInverter.call8
  rw [e1, e2, e3, e4, e5, e6, e7, e8]
  simp only [Nat.testBit_or, testBit_byteMask, Nat.testBit_shiftLeft,
    Nat.testBit_shiftRight]
  rcases Nat.lt_or_ge i 8 with h1 | h1
  · simp [
      show i < 8 from by omega,
      show i < 16 from by omega,
      show i < 24 from by omega,
      show i < 32 from by omega,
      show i < 40 from by omega,
      show i < 48 from by omega,
      show i < 56 from by omega,
      show i < 64 from by omega,
      show ¬(8 ≤ i) from by omega,
      show ¬(16 ≤ i) from by omega,
      show ¬(24 ≤ i) from by omega,
      show ¬(32 ≤ i) from by omega,
      show ¬(40 ≤ i) from by omega,
      show ¬(48 ≤ i) from by omega,
      show ¬(56 ≤ i) from by omega,
      show i < 0 + 8 from by omega,
      show i < 8 + 8 from by omega,
      show i < 16 + 8 from by omega,
      show i < 24 + 8 from by omega,
      show i < 32 + 8 from by omega,
      show i < 40 + 8 from by omega,
      show i < 48 + 8 from by omega,
      show i < 56 + 8 from by omega,
      Nat.add_comm 56 i]
  · rcases Nat.lt_or_ge i 16 with h2 | h2
    · simp [
        show ¬(i < 8) from by omega,
        show i < 16 from by omega,
        show i < 24 from by omega,
        show i < 32 from by omega,
        show i < 40 from by omega,
        show i < 48 from by omega,
        show i < 56 from by omega,
        show i < 64 from by omega,
        show 8 ≤ i from by omega,
        show ¬(16 ≤ i) from by omega,
        show ¬(24 ≤ i) from by omega,
        show ¬(32 ≤ i) from by omega,
        show ¬(40 ≤ i) from by omega,
        show ¬(48 ≤ i) from by omega,
        show ¬(56 ≤ i) from by omega,
        show ¬(i < 0 + 8) from by omega,
        show i < 8 + 8 from by omega,
        show i < 16 + 8 from by omega,
        show i < 24 + 8 from by omega,
        show i < 32 + 8 from by omega,
        show i < 40 + 8 from by omega,
        show i < 48 + 8 from by omega,
        show i < 56 + 8 from by omega,
        Nat.add_comm 40 i]
    · rcases Nat.lt_or_ge i 24 with h3 | h3
      · simp [
          show ¬(i < 8) from by omega,
          show ¬(i < 16) from by omega,
          show i < 24 from by omega,
          show i < 32 from by omega,
          show i < 40 from by omega,
          show i < 48 from by omega,
          show i < 56 from by omega,
          show i < 64 from by omega,
          show 8 ≤ i from by omega,
          show 16 ≤ i from by omega,
          show ¬(24 ≤ i) from by omega,
          show ¬(32 ≤ i) from by omega,
          show ¬(40 ≤ i) from by omega,
          show ¬(48 ≤ i) from by omega,
          show ¬(56 ≤ i) from by omega,
          show ¬(i < 0 + 8) from by omega,
          show ¬(i < 8 + 8) from by omega,
          show i < 16 + 8 from by omega,
          show i < 24 + 8 from by omega,
          show i < 32 + 8 from by omega,
          show i < 40 + 8 from by omega,
          show i < 48 + 8 from by omega,
          show i < 56 + 8 from by omega,
          Nat.add_comm 24 i]
      · rcases Nat.lt_or_ge i 32 with h4 | h4
        · simp [
            show ¬(i < 8) from by omega,
            show ¬(i < 16) from by omega,
            show ¬(i < 24) from by omega,
            show i < 32 from by omega,
            show i < 40 from by omega,
            show i < 48 from by omega,
            show i < 56 from by omega,
            show i < 64 from by omega,
            show 8 ≤ i from by omega,
            show 16 ≤ i from by omega,
            show 24 ≤ i from by omega,
            show ¬(32 ≤ i) from by omega,
            show ¬(40 ≤ i) from by omega,
            show ¬(48 ≤ i) from by omega,
            show ¬(56 ≤ i) from by omega,
            show ¬(i < 0 + 8) from by omega,
            show ¬(i < 8 + 8) from by omega,
            show ¬(i < 16 + 8) from by omega,
            show i < 24 + 8 from by omega,
            show i < 32 + 8 from by omega,
            show i < 40 + 8 from by omega,
            show i < 48 + 8 from by omega,
            show i < 56 + 8 from by omega,
            Nat.add_comm 8 i]
        · rcases Nat.lt_or_ge i 40 with h5 | h5
          · simp [
              show ¬(i < 8) from by omega,
              show ¬(i < 16) from by omega,
              show ¬(i < 24) from by omega,
              show ¬(i < 32) from by omega,
              show i < 40 from by omega,
              show i < 48 from by omega,
              show i < 56 from by omega,
              show i < 64 from by omega,
              show 8 ≤ i from by omega,
              show 16 ≤ i from by omega,
              show 24 ≤ i from by omega,
              show 32 ≤ i from by omega,
              show ¬(40 ≤ i) from by omega,
              show ¬(48 ≤ i) from by omega,
              show ¬(56 ≤ i) from by omega,
              show ¬(i < 0 + 8) from by omega,
              show ¬(i < 8 + 8) from by omega,
              show ¬(i < 16 + 8) from by omega,
              show ¬(i < 24 + 8) from by omega,
              show i < 32 + 8 from by omega,
              show i < 40 + 8 from by omega,
              show i < 48 + 8 from by omega,
              show i < 56 + 8 from by omega]
          · rcases Nat.lt_or_ge i 48 with h6 | h6
            · simp [
                show ¬(i < 8) from by omega,
                show ¬(i < 16) from by omega,
                show ¬(i < 24) from by omega,
                show ¬(i < 32) from by omega,
                show ¬(i < 40) from by omega,
                show i < 48 from by omega,
                show i < 56 from by omega,
                show i < 64 from by omega,
                show 8 ≤ i from by omega,
                show 16 ≤ i from by omega,
                show 24 ≤ i from by omega,
                show 32 ≤ i from by omega,
                show 40 ≤ i from by omega,
                show ¬(48 ≤ i) from by omega,
                show ¬(56 ≤ i) from by omega,
                show ¬(i < 0 + 8) from by omega,
                show ¬(i < 8 + 8) from by omega,
                show ¬(i < 16 + 8) from by omega,
                show ¬(i < 24 + 8) from by omega,
                show ¬(i < 32 + 8) from by omega,
                show i < 40 + 8 from by omega,
                show i < 48 + 8 from by omega,
                show i < 56 + 8 from by omega]
            · rcases Nat.lt_or_ge i 56 with h7 | h7
              · simp [
                  show ¬(i < 8) from by omega,
                  show ¬(i < 16) from by omega,
                  show ¬(i < 24) from by omega,
                  show ¬(i < 32) from by omega,
                  show ¬(i < 40) from by omega,
                  show ¬(i < 48) from by omega,
                  show i < 56 from by omega,
                  show i < 64 from by omega,
                  show 8 ≤ i from by omega,
                  show 16 ≤ i from by omega,
                  show 24 ≤ i from by omega,
                  show 32 ≤ i from by omega,
                  show 40 ≤ i from by omega,
                  show 48 ≤ i from by omega,
                  show ¬(56 ≤ i) from by omega,
                  show ¬(i < 0 + 8) from by omega,
                  show ¬(i < 8 + 8) from by omega,
                  show ¬(i < 16 + 8) from by omega,
                  show ¬(i < 24 + 8) from by omega,
                  show ¬(i < 32 + 8) from by omega,
                  show ¬(i < 40 + 8) from by omega,
                  show i < 48 + 8 from by omega,
                  show i < 56 + 8 from by omega]
              · rcases Nat.lt_or_ge i 64 with h8 | h8
                · simp [
                    show ¬(i < 8) from by omega,
                    show ¬(i < 16) from by omega,
                    show ¬(i < 24) from by omega,
                    show ¬(i < 32) from by omega,
                    show ¬(i < 40) from by omega,
                    show ¬(i < 48) from by omega,
                    show ¬(i < 56) from by omega,
                    show i < 64 from by omega,
                    show 8 ≤ i from by omega,
                    show 16 ≤ i from by omega,
                    show 24 ≤ i from by omega,
                    show 32 ≤ i from by omega,
                    show 40 ≤ i from by omega,
                    show 48 ≤ i from by omega,
                    show 56 ≤ i from by omega,
                    show ¬(i < 0 + 8) from by omega,
                    show ¬(i < 8 + 8) from by omega,
                    show ¬(i < 16 + 8) from by omega,
                    show ¬(i < 24 + 8) from by omega,
                    show ¬(i < 32 + 8) from by omega,
                    show ¬(i < 40 + 8) from by omega,
                    show ¬(i < 48 + 8) from by omega,
                    show i < 56 + 8 from by omega]
                · simp [
                    show ¬(i < 8) from by omega,
                    show ¬(i < 16) from by omega,
                    show ¬(i < 24) from by omega,
                    show ¬(i < 32) from by omega,
                    show ¬(i < 40) from by omega,
                    show ¬(i < 48) from by omega,
                    show ¬(i < 56) from by omega,
                    show ¬(i < 64) from by omega,
                    show 8 ≤ i from by omega,
                    show 16 ≤ i from by omega,
                    show 24 ≤ i from by omega,
                    show 32 ≤ i from by omega,
                    show 40 ≤ i from by omega,
                    show 48 ≤ i from by omega,
                    show 56 ≤ i from by omega,
                    show ¬(i < 0 + 8) from by omega,
                    show ¬(i < 8 + 8) from by omega,
                    show ¬(i < 16 + 8) from by omega,
                    show ¬(i < 24 + 8) from by omega,
                    show ¬(i < 32 + 8) from by omega,
                    show ¬(i < 40 + 8) from by omega,
                    show ¬(i < 48 + 8) from by omega,
                    show ¬(i < 56 + 8) from by omega]

set_option maxHeartbeats 1000000 in
theorem call8_involution (x : Nat) (hx : x < 2 ^ 64) :
    EndiannessInverter.call8 (EndiannessInverter.call8 x) = x := by
  apply Nat.eq_of_testBit_eq
  intro i
  rcases Nat.lt_or_ge i 8 with h1 | h1
  · simp [
      testBit_call8,
      show i < 8 from by omega,
      show i < 16 from by omega,
      show i < 24 from by omega,
      show i < 32 from by omega,
      show i < 40 from by omega,
      show i < 48 from by omega,
      show i < 56 from by omega,
      show i < 64 from by omega,
      show ¬(i + 56 < 8) from by omega,
      show ¬(i + 56 < 16) from by omega,
      show ¬(i + 56 < 24) from by omega,
      show ¬(i + 56 < 32) from by omega,
      show ¬(i + 56 < 40) from by omega,
      show ¬(i + 56 < 48) from by omega,
      show ¬(i + 56 < 56) from by omega,
      show i + 56 < 64 from by omega]
  · rcases Nat.lt_or_ge i 16 with h2 | h2
    · simp [
        testBit_call8,
        show ¬(i < 8) from by omega,
        show i < 16 from by omega,
        show i < 24 from by omega,
        show i < 32 from by omega,
        show i < 40 from by omega,
        show i < 48 from by omega,
        show i < 56 from by omega,
        show i < 64 from by omega,
        show ¬(i + 40 < 8) from by omega,
        show ¬(i + 40 < 16) from by omega,
        show ¬(i + 40 < 24) from by omega,
        show ¬(i + 40 < 32) from by omega,
        show ¬(i + 40 < 40) from by omega,
        show ¬(i + 40 < 48) from by omega,
        show i + 40 < 56 from by omega,
        show i + 40 < 64 from by omega]
    · rcases Nat.lt_or_ge i 24 with h3 | h3
      · simp [
          testBit_call8,
          show ¬(i < 8) from by omega,
          show ¬(i < 16) from by omega,
          show i < 24 from by omega,
          show i < 32 from by omega,
          show i < 40 from by omega,
          show i < 48 from by omega,
          show i < 56 from by omega,
          show i < 64 from by omega,
          show ¬(i + 24 < 8) from by omega,
          show ¬(i + 24 < 16) from by omega,
          show ¬(i + 24 < 24) from by omega,
          show ¬(i + 24 < 32) from by omega,
          show ¬(i + 24 < 40) from by omega,
          show i + 24 < 48 from by omega,
          show i + 24 < 56 from by omega,
          show i + 24 < 64 from by omega]
      · rcases Nat.lt_or_ge i 32 with h4 | h4
        · simp [
            testBit_call8,
            show ¬(i < 8) from by omega,
            show ¬(i < 16) from by omega,
            show ¬(i < 24) from by omega,
            show i < 32 from by omega,
            show i < 40 from by omega,
            show i < 48 from by omega,
            show i < 56 from by omega,
            show i < 64 from by omega,
            show ¬(i + 8 < 8) from by omega,
            show ¬(i + 8 < 16) from by omega,
            show ¬(i + 8 < 24) from by omega,
            show ¬(i + 8 < 32) from by omega,
            show i + 8 < 40 from by omega,
            show i + 8 < 48 from by omega,
            show i + 8 < 56 from by omega,
            show i + 8 < 64 from by omega]
        · rcases Nat.lt_or_ge i 40 with h5 | h5
          · simp [
              testBit_call8,
              show ¬(i < 8) from by omega,
              show ¬(i < 16) from by omega,
              show ¬(i < 24) from by omega,
              show ¬(i < 32) from by omega,
              show i < 40 from by omega,
              show i < 48 from by omega,
              show i < 56 from by omega,
              show i < 64 from by omega,
              show ¬(i - 8 < 8) from by omega,
              show ¬(i - 8 < 16) from by omega,
              show ¬(i - 8 < 24) from by omega,
              show i - 8 < 32 from by omega,
              show i - 8 < 40 from by omega,
              show i - 8 < 48 from by omega,
              show i - 8 < 56 from by omega,
              show i - 8 < 64 from by omega]
            all_goals try (congr 1; omega)
          · rcases Nat.lt_or_ge i 48 with h6 | h6
            · simp [
                testBit_call8,
                show ¬(i < 8) from by omega,
                show ¬(i < 16) from by omega,
                show ¬(i < 24) from by omega,
                show ¬(i < 32) from by omega,
                show ¬(i < 40) from by omega,
                show i < 48 from by omega,
                show i < 56 from by omega,
                show i < 64 from by omega,
                show ¬(i - 24 < 8) from by omega,
                show ¬(i - 24 < 16) from by omega,
                show i - 24 < 24 from by omega,
                show i - 24 < 32 from by omega,
                show i - 24 < 40 from by omega,
                show i - 24 < 48 from by omega,
                show i - 24 < 56 from by omega,
                show i - 24 < 64 from by omega]
              all_goals try (congr 1; omega)
            · rcases Nat.lt_or_ge i 56 with h7 | h7
              · simp [
                  testBit_call8,
                  show ¬(i < 8) from by omega,
                  show ¬(i < 16) from by omega,
                  show ¬(i < 24) from by omega,
                  show ¬(i < 32) from by omega,
                  show ¬(i < 40) from by omega,
                  show ¬(i < 48) from by omega,
                  show i < 56 from by omega,
                  show i < 64 from by omega,
                  show ¬(i - 40 < 8) from by omega,
                  show i - 40 < 16 from by omega,
                  show i - 40 < 24 from by omega,
                  show i - 40 < 32 from by omega,
                  show i - 40 < 40 from by omega,
                  show i - 40 < 48 from by omega,
                  show i - 40 < 56 from by omega,
                  show i - 40 < 64 from by omega]
                all_goals try (congr 1; omega)
              · rcases Nat.lt_or_ge i 64 with h8 | h8
                · simp [
                    testBit_call8,
                    show ¬(i < 8) from by omega,
                    show ¬(i < 16) from by omega,
                    show ¬(i < 24) from by omega,
                    show ¬(i < 32) from by omega,
                    show ¬(i < 40) from by omega,
                    show ¬(i < 48) from by omega,
                    show ¬(i < 56) from by omega,
                    show i < 64 from by omega,
                    show i - 56 < 8 from by omega,
                    show i - 56 < 16 from by omega,
                    show i - 56 < 24 from by omega,
                    show i - 56 < 32 from by omega,
                    show i - 56 < 40 from by omega,
                    show i - 56 < 48 from by omega,
                    show i - 56 < 56 from by omega,
                    show i - 56 < 64 from by omega]
                  all_goals try (congr 1; omega)
                · have hge : 64 ≤ i := h8
                  rw [testBit_call8, testBit_call8]
                  simp [show ¬(i < 8) from by omega, show ¬(i < 16) from by omega,
                    show ¬(i < 24) from by omega, show ¬(i < 32) from by omega,
                    show ¬(i < 40) from by omega, show ¬(i < 48) from by omega,
                    show ¬(i < 56) from by omega, show ¬(i < 64) from by omega]
                  exact Nat.testBit_lt_two_pow
                    (lt_of_lt_of_le hx (Nat.pow_le_pow_right (by omega : 0 < 2) hge))

-- =====================================================================
-- Decode engine lemmas and claims C3 to C6
-- =====================================================================

theorem scanLoop_reads_le (data : Nat → Nat) (length : Nat) :
    ∀ remaining i dist, ∀ j ∈ (scanLoop data length remaining i dist).reads,
      j ≤ length := by
  intro remaining
  induction remaining with
  | zero =>
    intro i dist j hj
    simp [scanLoop] at hj
  | succ n ih =>
    intro i dist j hj
    simp only [scanLoop] at hj
    split_ifs at hj with h1 h2
    · simp at hj
    · simp at hj
      omega
    · simp at hj
      rcases hj with rfl | hj
      · omega
      · exact ih _ _ _ hj

theorem scanLoop_error_cases (data : Nat → Nat) (length : Nat) :
    ∀ remaining i dist,
      (scanLoop data length remaining i dist).error = .NoError
      ∨ ((scanLoop data length remaining i dist).error = .ExceededDataRange
          ∧ (scanLoop data length remaining i dist).found = false) := by
  intro remaining
  induction remaining with
  | zero =>
    intro i dist
    simp [scanLoop]
  | succ n ih =>
    intro i dist
    simp only [scanLoop]
    split_ifs with h1 h2
    · right
      exact ⟨rfl, rfl⟩
    · left
      rfl
    · exact ih (i + 1) (dist + 1)

theorem processFields_sticky (data : Nat → Nat) (length : Nat) :
    ∀ (fs : List Field) (offset : Nat) (err : PacketParserErrorId),
      err ≠ .NoError →
      processFields data length fs offset err
        = ⟨offset, err, [], [], fs.length, 0⟩ := by
  intro fs
  induction fs with
  | nil =>
    intro offset err h
    simp [processFields]
  | cons f rest ih =>
    intro offset err h
    simp only [processFields, if_neg h, skipOut]
    rw [ih _ err h]
    simp [seqOut]
    omega

/-- C3: for every field sequence, once the sequence's error slot holds a
value other than NoError, processing every subsequent field of that same
sequence performs no buffer reads, no delivery-operation calls, and no
cursor advancement, and the final result of the sequence is that first
error (first error wins, sticky). -/
theorem claim_C3_sticky_error_skips (data : Nat → Nat) (length : Nat)
    (fs : List Field) (offset : Nat) (err : PacketParserErrorId)
    (h : err ≠ .NoError) :
    (processFields data length fs offset err).error = err
    ∧ (processFields data length fs offset err).offset = offset
    ∧ (processFields data length fs offset err).events = []
    ∧ (processFields data length fs offset err).delivered = [] := by
  rw [processFields_sticky data length fs offset err h]
  exact ⟨rfl, rfl, rfl, rfl⟩

/-- Witness for C3 at a concrete input. -/
theorem claim_C3_witness :
    (processFields (fun _ => 9) 4 [.valueField 2 false, .textField 3 true] 1
        .ExceededDataRange).error = .ExceededDataRange
    ∧ (processFields (fun _ => 9) 4 [.valueField 2 false, .textField 3 true] 1
        .ExceededDataRange).offset = 1
    ∧ (processFields (fun _ => 9) 4 [.valueField 2 false, .textField 3 true] 1
        .ExceededDataRange).events = []
    ∧ (processFields (fun _ => 9) 4 [.valueField 2 false, .textField 3 true] 1
        .ExceededDataRange).delivered = [] :=
  claim_C3_sticky_error_skips (fun _ => 9) 4 [.valueField 2 false, .textField 3 true]
    1 .ExceededDataRange (by decide)

/-- C4: a Group (MultiField) whose child sequence decodes without error
invokes its delivery operation exactly once with the fully populated
intermediary value; if any child fails, the same error code is propagated
unchanged and the delivery operation is not invoked. -/
theorem claim_C4_group_delivery (data : Nat → Nat) (length : Nat)
    (children : List Field) (offset : Nat) :
    ((processFields data length children offset .NoError).error = .NoError →
      processBinary data length (.multiField children) offset
        = ⟨(processFields data length children offset .NoError).offset, .NoError,
           [.obj (processFields data length children offset .NoError).delivered],
           (processFields data length children offset .NoError).events
             ++ [.deliver (.obj (processFields data length children offset .NoError).delivered)],
           (processFields data length children offset .NoError).cost,
           (processFields data length children offset .NoError).iters⟩)
    ∧ (∀ e, (processFields data length children offset .NoError).error = e →
        e ≠ .NoError →
        processBinary data length (.multiField children) offset
          = ⟨(processFields data length children offset .NoError).offset, e, [],
             (processFields data length children offset .NoError).events,
             (processFields data length children offset .NoError).cost,
             (processFields data length children offset .NoError).iters⟩) := by
  constructor
  · intro h
    simp only [processBinary]
    rw [if_pos h]
  · intro e he hne
    simp only [processBinary]
    rw [if_neg (by rw [he]; exact hne)]
    rw [he]

/-- Witness for C4 at a concrete input (clean child sequence). -/
theorem claim_C4_witness :
    processBinary (fun _ => 5) 4 (.multiField [.valueField 1 false]) 0
      = ⟨(processFields (fun _ => 5) 4 [.valueField 1 false] 0 .NoError).offset, .NoError,
         [.obj (processFields (fun _ => 5) 4 [.valueField 1 false] 0 .NoError).delivered],
         (processFields (fun _ => 5) 4 [.valueField 1 false] 0 .NoError).events
           ++ [.deliver (.obj (processFields (fun _ => 5) 4 [.valueField 1 false] 0 .NoError).delivered)],
         (processFields (fun _ => 5) 4 [.valueField 1 false] 0 .NoError).cost,
         (processFields (fun _ => 5) 4 [.valueField 1 false] 0 .NoError).iters⟩ :=
  (claim_C4_group_delivery (fun _ => 5) 4 [.valueField 1 false] 0).1 (by rfl)

/-- C5: a Text field whose byte at the cursor is the terminator yields
EmptyTextNotAllowed when empty text is disallowed; with allowEmpty the
field succeeds, delivers the empty string and advances the cursor by 1. -/
theorem claim_C5_empty_text (data : Nat → Nat) (length maxLength offset : Nat)
    (hml : 1 ≤ maxLength) (hoff : offset ≤ length) (hterm : data offset = 0) :
    (processBinary data length (.textField maxLength false) offset).error
        = .EmptyTextNotAllowed
    ∧ (processBinary data length (.textField maxLength false) offset).delivered = []
    ∧ (processBinary data length (.textField maxLength false) offset).offset = offset
    ∧ (processBinary data length (.textField maxLength true) offset).error = .NoError
    ∧ (processBinary data length (.textField maxLength true) offset).delivered
        = [.text []]
    ∧ (processBinary data length (.textField maxLength true) offset).offset
        = offset + 1 := by
  obtain ⟨m, rfl⟩ : ∃ m, maxLength = m + 1 := ⟨maxLength - 1, by omega⟩
  have hsub : offset + (m + 1) - offset = m + 1 := by omega
  have hscan : rangeContainsNullTerminator data length offset (offset + (m + 1))
      = ⟨true, 1, .NoError, [offset]⟩ := by
    unfold rangeContainsNullTerminator
    rw [hsub]
    simp [scanLoop, Nat.not_lt.mpr hoff, hterm]
  simp [processBinary, hscan]

/-- Witness for C5 at a concrete input. -/
theorem claim_C5_witness :
    (processBinary (fun _ => 0) 2 (.textField 3 false) 0).error = .EmptyTextNotAllowed
    ∧ (processBinary (fun _ => 0) 2 (.textField 3 false) 0).delivered = []
    ∧ (processBinary (fun _ => 0) 2 (.textField 3 false) 0).offset = 0
    ∧ (processBinary (fun _ => 0) 2 (.textField 3 true) 0).error = .NoError
    ∧ (processBinary (fun _ => 0) 2 (.textField 3 true) 0).delivered = [.text []]
    ∧ (processBinary (fun _ => 0) 2 (.textField 3 true) 0).offset = 0 + 1 :=
  claim_C5_empty_text (fun _ => 0) 2 3 0 (by decide) (by decide) (by rfl)

/-- C6: a DynamicFieldArray whose size prefix decodes to 0 and lies within
the declared length performs zero child invocations and zero delivery
calls, and advances the cursor by exactly the prefix width. -/
theorem claim_C6_repeated_zero (data : Nat → Nat) (length w offset : Nat)
    (child : Field)
    (hcount : readLE data offset w = 0) (hrange : offset + w ≤ length) :
    processBinary data length (.dynamicFieldArray w child) offset
      = ⟨offset + w, .NoError, [], readEvents offset w, 0, 0⟩ := by
  simp [processBinary, hcount, Nat.not_lt.mpr hrange, dynLoopAux]

/-- Witness for C6 at a concrete input. -/
theorem claim_C6_witness :
    processBinary (fun _ => 0) 2 (.dynamicFieldArray 2 (.valueField 1 false)) 0
      = ⟨0 + 2, .NoError, [], readEvents 0 2, 0, 0⟩ :=
  claim_C6_repeated_zero (fun _ => 0) 2 2 0 (.valueField 1 false) (by rfl) (by decide)

-- =====================================================================
-- Claims C1 and C2: truncation and the text scan bound
-- =====================================================================

/-- C1 (amended): when the declared length truncates a Scalar field
(current offset plus width exceeds the declared length), the ValueField
step reports ExceededDataRange; however, following the source order, the
scalar's bytes are all read and the delivery operation is invoked with
the resulting value BEFORE the bounds check, so reads at indices at or
beyond the declared length do occur. -/
theorem claim_C1_truncated_scalar (data : Nat → Nat) (length w offset : Nat)
    (inv : Bool) (h : length < offset + w) :
    processBinary data length (.valueField w inv) offset
      = ⟨offset + w, .ExceededDataRange,
         [.num (if inv then invertForWidth w (readLE data offset w)
                else readLE data offset w)],
         readEvents offset w
           ++ [.deliver (.num (if inv then invertForWidth w (readLE data offset w)
                               else readLE data offset w))],
         0, 0⟩ := by
  simp [processBinary, h]

/-- Witness for C1 (amended) at a concrete input. -/
theorem claim_C1_witness :
    processBinary (fun _ => 7) 1 (.valueField 2 false) 0
      = ⟨0 + 2, .ExceededDataRange,
         [.num (if false then invertForWidth 2 (readLE (fun _ => 7) 0 2)
                else readLE (fun _ => 7) 0 2)],
         readEvents 0 2
           ++ [.deliver (.num (if false then invertForWidth 2 (readLE (fun _ => 7) 0 2)
                               else readLE (fun _ => 7) 0 2))],
         0, 0⟩ :=
  claim_C1_truncated_scalar (fun _ => 7) 1 2 0 false (by decide)

/-- Counterexample to C1 as stated: decoding a 2-byte scalar against a
buffer of declared length 1 does report ExceededDataRange, but the run's
event trace contains a read of the byte at index 1, which is outside the
declared buffer range [0, 1) — refuting the part of the claim that says
no read outside the declared range is ever performed. -/
theorem claim_C1_counterexample :
    ((makePacketParser [.valueField 2 false]).parse (fun _ => 7) 1).1.error
        = .ExceededDataRange
    ∧ Event.read 1 ∈ ((makePacketParser [.valueField 2 false]).parse (fun _ => 7) 1).1.events := by
  constructor
  · rfl
  · show Event.read 1 ∈ [Event.read 0, Event.read 1, Event.deliver (.num 1799)]
    simp

/-- C2 (amended): the terminator scan never reads a byte at an index
strictly greater than the declared length — but, because the source
compares the index with the strict bound `i > _length`, it may read the
byte at index exactly equal to the declared length.  When the scan does
run past the declared length before a terminator or the window end, it
sets ExceededDataRange, and the Text rule preserves it: the error takes
precedence over MissingNullTerminator. -/
theorem claim_C2_text_scan_bound (data : Nat → Nat)
    (length beginOffset endOffset maxLength offset : Nat) (allowEmpty : Bool) :
    (∀ j ∈ (rangeContainsNullTerminator data length beginOffset endOffset).reads,
      j ≤ length)
    ∧ ((rangeContainsNullTerminator data length offset (offset + maxLength)).error
          = .ExceededDataRange →
        (processBinary data length (.textField maxLength allowEmpty) offset).error
          = .ExceededDataRange) := by
  constructor
  · exact scanLoop_reads_le data length _ _ _
  · intro herr
    have hfound :
        (rangeContainsNullTerminator data length offset (offset + maxLength)).found
          = false := by
      rcases scanLoop_error_cases data length (offset + maxLength - offset) offset 0 with
        h | h
      · rw [rangeContainsNullTerminator] at herr
        rw [herr] at h
        cases h
      · exact h.2
    simp only [processBinary]
    rw [if_pos hfound, herr]
    simp

/-- Witness for C2 (amended) at a concrete input: a scan that runs past
the declared length (length 1, window of 3 from offset 0 over nonzero
bytes) reads only indices at most 1 and the Text rule reports
ExceededDataRange. -/
theorem claim_C2_witness :
    1 ≤ 1
    ∧ (processBinary (fun _ => 1) 1 (.textField 3 true) 0).error
        = .ExceededDataRange :=
  ⟨(claim_C2_text_scan_bound (fun _ => 1) 1 0 3 3 0 true).1 1 (by decide),
   (claim_C2_text_scan_bound (fun _ => 1) 1 0 3 3 0 true).2 (by rfl)⟩

/-- Counterexample to C2 as stated: with declared length 1 and a Text
window of 3 nonzero bytes from offset 0, the scan's event trace contains
a read of the byte at index 1 — an index equal to (hence not strictly
below) the declared buffer length — refuting the part of the claim that
says the scan never reads at an index greater than or equal to the
declared length.  (The decode still reports ExceededDataRange.) -/
theorem claim_C2_counterexample :
    Event.read 1 ∈ (processBinary (fun _ => 1) 1 (.textField 3 true) 0).events
    ∧ (processBinary (fun _ => 1) 1 (.textField 3 true) 0).error
        = .ExceededDataRange := by
  constructor
  · show Event.read 1 ∈ [Event.read 0, Event.read 1]
    simp
  · rfl

-- =====================================================================
-- Claim C8: the error taxonomy actually produced by the engine
-- =====================================================================

/-- Errors the decode engine can actually produce. -/
def allowedError (e : PacketParserErrorId) : Prop :=
  e = .NoError ∨ e = .MissingNullTerminator ∨ e = .EmptyTextNotAllowed
    ∨ e = .ExceededDataRange ∨ e = .UnhandledFieldType

theorem dynLoopAux_allowed (step : Nat → PacketParserErrorId → StepOut)
    (hstep : ∀ o e, allowedError e → allowedError (step o e).error) :
    ∀ n offset err, allowedError err →
      allowedError (dynLoopAux step n offset err).error := by
  intro n
  induction n with
  | zero =>
    intro offset err h
    exact h
  | succ k ih =>
    intro offset err h
    simp only [dynLoopAux, seqOut]
    exact ih _ _ (hstep _ _ h)

mutual

theorem processBinary_allowed (data : Nat → Nat) (length : Nat) :
    ∀ (f : Field) (offset : Nat),
      allowedError (processBinary data length f offset).error
  | .valueField w inv, offset => by
    simp only [processBinary]
    split_ifs <;> simp [allowedError]
  | .textField maxLength allowEmpty, offset => by
    have hcases :
        (rangeContainsNullTerminator data length offset (offset + maxLength)).error
            = .NoError
        ∨ ((rangeContainsNullTerminator data length offset (offset + maxLength)).error
              = .ExceededDataRange
            ∧ (rangeContainsNullTerminator data length offset
                (offset + maxLength)).found = false) :=
      scanLoop_error_cases data length (offset + maxLength - offset) offset 0
    simp only [processBinary]
    split_ifs with h1 h2 <;> try simp [allowedError]
    rcases hcases with h | h
    · simp [h, allowedError]
    · simp [h.1, allowedError]
  | .binaryField, offset => by
    simp [processBinary, allowedError]
  | .multiField children, offset => by
    have h := processFields_allowed data length children offset .NoError (Or.inl rfl)
    simp only [processBinary]
    split_ifs with h1
    · simp [allowedError]
    · simpa using h
  | .dynamicFieldArray w child, offset => by
    simp only [processBinary]
    split_ifs with h1
    · simp [allowedError]
    · refine dynLoopAux_allowed _ ?_ _ _ _ (Or.inl rfl)
      intro o e he
      by_cases h : e = .NoError
      · have hb := processBinary_allowed data length child o
        simp only [h, if_pos rfl, bump]
        simpa using hb
      · simp only [if_neg h, skipOut]
        exact he
  | .staticFieldArray n child, offset => by
    simp [processBinary, allowedError]

theorem processFields_allowed (data : Nat → Nat) (length : Nat) :
    ∀ (fs : List Field) (offset : Nat) (err : PacketParserErrorId),
      allowedError err →
      allowedError (processFields data length fs offset err).error
  | [], _, _, h => h
  | f :: rest, offset, err, h => by
    simp only [processFields, seqOut]
    by_cases he : err = .NoError
    · rw [if_pos he]
      refine processFields_allowed data length rest _ _ ?_
      have hb := processBinary_allowed data length f offset
      simpa [bump] using hb
    · rw [if_neg he]
      refine processFields_allowed data length rest _ _ ?_
      simpa [skipOut] using h

end

/-- C8: a decode call only ever returns NoError, MissingNullTerminator,
EmptyTextNotAllowed, ExceededDataRange or UnhandledFieldType; the declared
codes InvalidText, InvalidValue and Unknown are never produced. -/
theorem claim_C8_error_codes (fields : List Field) (data : Nat → Nat) (length : Nat) :
    (((makePacketParser fields).parse data length).1.error = .NoError
      ∨ ((makePacketParser fields).parse data length).1.error = .MissingNullTerminator
      ∨ ((makePacketParser fields).parse data length).1.error = .EmptyTextNotAllowed
      ∨ ((makePacketParser fields).parse data length).1.error = .ExceededDataRange
      ∨ ((makePacketParser fields).parse data length).1.error = .UnhandledFieldType)
    ∧ ((makePacketParser fields).parse data length).1.error ≠ .InvalidText
    ∧ ((makePacketParser fields).parse data length).1.error ≠ .InvalidValue
    ∧ ((makePacketParser fields).parse data length).1.error ≠ .Unknown := by
  have h := processFields_allowed data length fields 0 .NoError (Or.inl rfl)
  have hp : ((makePacketParser fields).parse data length).1
      = processFields data length fields 0 .NoError := rfl
  rw [hp]
  refine ⟨h, ?_, ?_, ?_⟩ <;>
    rcases h with h | h | h | h | h <;> simp [h]

-- =====================================================================
-- Claim C9: termination and step-count bounds
-- =====================================================================

theorem nodeCount_pos (f : Field) : 1 ≤ nodeCount f := by
  cases f <;> simp [nodeCount]

theorem dynLoopAux_cost_le (step : Nat → PacketParserErrorId → StepOut) (C : Nat)
    (hstep : ∀ o e, (step o e).cost ≤ C * (1 + (step o e).iters)) :
    ∀ n offset err,
      (dynLoopAux step n offset err).cost
        ≤ C * (n + (dynLoopAux step n offset err).iters) := by
  intro n
  induction n with
  | zero =>
    intro offset err
    simp [dynLoopAux]
  | succ k ih =>
    intro offset err
    simp only [dynLoopAux, seqOut]
    calc (step offset err).cost
          + (dynLoopAux step k (step offset err).offset (step offset err).error).cost
        ≤ C * (1 + (step offset err).iters)
          + C * (k + (dynLoopAux step k (step offset err).offset
              (step offset err).error).iters) :=
          Nat.add_le_add (hstep offset err) (ih _ _)
      _ = C * (k + 1 + ((step offset err).iters
            + (dynLoopAux step k (step offset err).offset
                (step offset err).error).iters)) := by ring

theorem dynLoopAux_cost_ge (step : Nat → PacketParserErrorId → StepOut)
    (hstep : ∀ o e, 1 ≤ (step o e).cost) :
    ∀ n offset err, n ≤ (dynLoopAux step n offset err).cost := by
  intro n
  induction n with
  | zero =>
    intro offset err
    exact Nat.zero_le _
  | succ k ih =>
    intro offset err
    simp only [dynLoopAux, seqOut]
    have h1 := hstep offset err
    have h2 := ih (step offset err).offset (step offset err).error
    omega

mutual

theorem processBinary_cost (data : Nat → Nat) (length : Nat) :
    ∀ (f : Field) (offset : Nat),
      (processBinary data length f offset).cost + 1
        ≤ nodeCount f * (1 + (processBinary data length f offset).iters)
  | .valueField w inv, offset => by
    simp [processBinary, nodeCount]
  | .textField maxLength allowEmpty, offset => by
    simp only [processBinary, nodeCount]
    split_ifs <;> simp
  | .binaryField, offset => by
    simp [processBinary, nodeCount]
  | .multiField children, offset => by
    have h := processFields_cost data length children offset .NoError
    simp only [processBinary, nodeCount]
    split_ifs with h1 <;>
    calc (processFields data length children offset .NoError).cost + 1
          ≤ nodeCountList children
              * (1 + (processFields data length children offset .NoError).iters) + 1 :=
            Nat.add_le_add_right h 1
        _ ≤ nodeCountList children
              * (1 + (processFields data length children offset .NoError).iters)
            + (1 + (processFields data length children offset .NoError).iters) :=
            Nat.add_le_add_left (by omega) _
        _ = (1 + nodeCountList children)
              * (1 + (processFields data length children offset .NoError).iters) := by
            ring
  | .dynamicFieldArray w child, offset => by
    simp only [processBinary, nodeCount]
    split_ifs with h1
    · have hpos := nodeCount_pos child
      simp only [StepOut.cost, StepOut.iters]
      calc 0 + 1 = 1 := by omega
        _ ≤ (1 + nodeCount child) * (1 + 0) := by
            have : (1 + nodeCount child) * (1 + 0) = 1 + nodeCount child := by ring
            omega
    · have hstep : ∀ o e,
          ((if e = .NoError then bump (processBinary data length child o)
            else skipOut o e)).cost
            ≤ nodeCount child
              * (1 + ((if e = .NoError then bump (processBinary data length child o)
                       else skipOut o e)).iters) := by
        intro o e
        by_cases h : e = .NoError
        · rw [if_pos h]
          have hb := processBinary_cost data length child o
          simpa [bump] using hb
        · rw [if_neg h]
          have := nodeCount_pos child
          simp [skipOut]
          omega
      have hloop := dynLoopAux_cost_le _ (nodeCount child) hstep
        (readLE data offset w) (offset + w) .NoError
      calc (dynLoopAux _ (readLE data offset w) (offset + w) .NoError).cost + 1
          ≤ nodeCount child
              * (readLE data offset w
                + (dynLoopAux _ (readLE data offset w) (offset + w) .NoError).iters)
            + 1 := Nat.add_le_add_right hloop 1
        _ ≤ nodeCount child
              * (readLE data offset w
                + (dynLoopAux _ (readLE data offset w) (offset + w) .NoError).iters)
            + (1 + (readLE data offset w
                + (dynLoopAux _ (readLE data offset w) (offset + w) .NoError).iters)
               + nodeCount child) := Nat.add_le_add_left (by omega) _
        _ = (1 + nodeCount child)
              * (1 + (readLE data offset w
                + (dynLoopAux _ (readLE data offset w) (offset + w) .NoError).iters)) := by
            ring
  | .staticFieldArray n child, offset => by
    have hpos := nodeCount_pos child
    simp only [processBinary, nodeCount, StepOut.cost, StepOut.iters]
    have : (1 + nodeCount child) * (1 + 0) = 1 + nodeCount child := by ring
    omega

theorem processFields_cost (data : Nat → Nat) (length : Nat) :
    ∀ (fs : List Field) (offset : Nat) (err : PacketParserErrorId),
      (processFields data length fs offset err).cost
        ≤ nodeCountList fs * (1 + (processFields data length fs offset err).iters)
  | [], offset, err => by
    simp [processFields, nodeCountList]
  | f :: rest, offset, err => by
    simp only [processFields, seqOut, nodeCountList]
    by_cases he : err = .NoError
    · rw [if_pos he]
      have h1 := processBinary_cost data length f offset
      have h2 := processFields_cost data length rest
        (bump (processBinary data length f offset)).offset
        (bump (processBinary data length f offset)).error
      simp only [bump] at h2 ⊢
      calc (processBinary data length f offset).cost + 1
            + (processFields data length rest (processBinary data length f offset).offset
                (processBinary data length f offset).error).cost
          ≤ nodeCount f * (1 + (processBinary data length f offset).iters)
            + nodeCountList rest
              * (1 + (processFields data length rest
                  (processBinary data length f offset).offset
                  (processBinary data length f offset).error).iters) :=
            Nat.add_le_add h1 h2
        _ ≤ nodeCount f * (1 + ((processBinary data length f offset).iters
              + (processFields data length rest
                  (processBinary data length f offset).offset
                  (processBinary data length f offset).error).iters))
            + nodeCountList rest
              * (1 + ((processBinary data length f offset).iters
                + (processFields data length rest
                    (processBinary data length f offset).offset
                    (processBinary data length f offset).error).iters)) :=
            Nat.add_le_add (Nat.mul_le_mul_left _ (by omega)) (Nat.mul_le_mul_left _ (by omega))
        _ = (nodeCount f + nodeCountList rest)
              * (1 + ((processBinary data length f offset).iters
                + (processFields data length rest
                    (processBinary data length f offset).offset
                    (processBinary data length f offset).error).iters)) := by
            ring
    · rw [if_neg he]
      have h2 := processFields_cost data length rest offset err
      have hpos : 0 < nodeCount f * (1 + (processFields data length rest offset err).iters) :=
        Nat.mul_pos (nodeCount_pos f) (by omega)
      simp only [skipOut]
      calc 1 + (processFields data length rest offset err).cost
          ≤ nodeCount f * (1 + (processFields data length rest offset err).iters)
            + nodeCountList rest * (1 + (processFields data length rest offset err).iters) :=
            Nat.add_le_add hpos h2
        _ = (nodeCount f + nodeCountList rest)
              * (1 + (0 + (processFields data length rest offset err).iters)) := by
            ring

end

/-- C9 (amended): every decode call terminates — the engine is a total
function — and the number of field-processing steps is bounded by the
grammar's node count times one plus the sum of the decoded
DynamicFieldArray counts.  The bound necessarily involves the decoded
counts: it is not O(buffer length + node count). -/
theorem claim_C9_termination_bound (fields : List Field) (data : Nat → Nat)
    (length : Nat) :
    ((makePacketParser fields).parse data length).1.cost
      ≤ nodeCountList fields
          * (1 + ((makePacketParser fields).parse data length).1.iters) :=
  processFields_cost data length fields 0 .NoError

mutual

/-- A grammar has C++-expressible size-prefix widths: every
DynamicFieldArray's `sizeof(ArraySizeType)` is at most 8 bytes, as for
any C++ integral type. -/
def sizeWidthsValid : Field → Bool
  | .valueField _ _ => true
  | .textField _ _ => true
  | .binaryField => true
  | .multiField children => sizeWidthsValidList children
  | .dynamicFieldArray w child => decide (w ≤ 8) && sizeWidthsValid child
  | .staticFieldArray _ child => sizeWidthsValid child

/-- All size-prefix widths of a grammar forest are C++-expressible. -/
def sizeWidthsValidList : List Field → Bool
  | [] => true
  | f :: rest => sizeWidthsValid f && sizeWidthsValidList rest

end

/-- The complexity statement of the claim as written, over grammars whose
size-prefix widths are C++-expressible: some constant `c` bounds the step
count of every decode call by `c * (buffer length + node count + 1)`. -/
def linearStepBound : Prop :=
  ∃ c : Nat, ∀ (fields : List Field), sizeWidthsValidList fields = true →
    ∀ (data : Nat → Nat) (length : Nat),
      ((makePacketParser fields).parse data length).1.cost
        ≤ c * (length + nodeCountList fields + 1)

theorem readLE_const255 : ∀ (w offset : Nat),
    readLE (fun _ => 255) offset w = 256 ^ w - 1 := by
  intro w
  induction w with
  | zero =>
    intro offset
    simp [readLE]
  | succ k ih =>
    intro offset
    have hp : 1 ≤ 256 ^ k := Nat.one_le_pow _ _ (by omega)
    have hpow : (256 : Nat) ^ (k + 1) = 256 * 256 ^ k := by
      rw [Nat.pow_succ]
      ring
    simp only [readLE, ih]
    omega

theorem dyn_cost_lower (data : Nat → Nat) (length w offset : Nat) (child : Field)
    (hrange : ¬ (length < offset + w)) :
    readLE data offset w
      ≤ (processBinary data length (.dynamicFieldArray w child) offset).cost := by
  simp only [processBinary]
  rw [if_neg hrange]
  refine dynLoopAux_cost_ge _ ?_ _ _ _
  intro o e
  by_cases h : e = .NoError
  · simp [h, bump]
  · simp [h, skipOut]

theorem singleton_parse_cost (data : Nat → Nat) (length : Nat) (f : Field) :
    ((makePacketParser [f]).parse data length).1.cost
      = (processBinary data length f 0).cost + 1 := by
  simp [PacketParser.parse, makePacketParser, processFields, seqOut, bump]

/-- A Group of `m` empty Groups: decodes successfully, consumes no input,
and costs `m` field-processing steps per execution. -/
def flatGroups (m : Nat) : Field :=
  .multiField (List.replicate m (.multiField []))

/-- `d` nested width-1 DynamicFieldArrays around a Group of `m` empty
Groups — every size-prefix width is 1 byte, every decoded count is at
most 255. -/
def nestedCounted : Nat → Nat → Field
  | 0, m => flatGroups m
  | d + 1, m => .dynamicFieldArray 1 (nestedCounted d m)

/-- Bytes consumed by one execution of `nestedCounted d m` against an
all-0xff buffer. -/
def chainFuel : Nat → Nat
  | 0 => 0
  | d + 1 => 1 + 255 * chainFuel d

/-- Lower bound on the processBinary cost of one execution of
`nestedCounted d m` against an all-0xff buffer. -/
def chainCost : Nat → Nat → Nat
  | 0, m => m
  | d + 1, m => 255 * (chainCost d m + 1)

theorem flatGroups_run (data : Nat → Nat) (length : Nat) : ∀ (m offset : Nat),
    (processFields data length (List.replicate m (.multiField [])) offset
        .NoError).error = .NoError
    ∧ (processFields data length (List.replicate m (.multiField [])) offset
        .NoError).offset = offset
    ∧ (processFields data length (List.replicate m (.multiField [])) offset
        .NoError).cost = m := by
  intro m
  induction m with
  | zero =>
    intro offset
    simp [processFields]
  | succ k ih =>
    intro offset
    obtain ⟨he, ho, hc⟩ := ih offset
    refine ⟨?_, ?_, ?_⟩
    · simp [List.replicate, processFields, processBinary, seqOut, bump, he, ho, hc]
    · simp [List.replicate, processFields, processBinary, seqOut, bump, he, ho, hc]
    · simp [List.replicate, processFields, processBinary, seqOut, bump, he, ho, hc]
      omega

theorem nodeCountList_replicate_empty : ∀ m : Nat,
    nodeCountList (List.replicate m (.multiField [])) = m := by
  intro m
  induction m with
  | zero => simp [nodeCountList]
  | succ k ih =>
    simp [List.replicate, nodeCountList, nodeCount, ih]
    omega

theorem nodeCount_nestedCounted : ∀ d m : Nat,
    nodeCount (nestedCounted d m) = d + 1 + m := by
  intro d
  induction d with
  | zero =>
    intro m
    simp [nestedCounted, flatGroups, nodeCount, nodeCountList_replicate_empty]
  | succ k ih =>
    intro m
    simp [nestedCounted, nodeCount, ih]
    omega

theorem sizeWidthsValidList_replicate_empty : ∀ m : Nat,
    sizeWidthsValidList (List.replicate m (.multiField [])) = true := by
  intro m
  induction m with
  | zero => simp [sizeWidthsValidList]
  | succ k ih => simp [List.replicate, sizeWidthsValidList, sizeWidthsValid, ih]

theorem sizeWidthsValid_nestedCounted : ∀ d m : Nat,
    sizeWidthsValid (nestedCounted d m) = true := by
  intro d
  induction d with
  | zero =>
    intro m
    simp [nestedCounted, flatGroups, sizeWidthsValid,
      sizeWidthsValidList_replicate_empty]
  | succ k ih =>
    intro m
    simp [nestedCounted, sizeWidthsValid, ih]

theorem chainCost_ge : ∀ d m : Nat, 255 ^ d * m ≤ chainCost d m := by
  intro d
  induction d with
  | zero =>
    intro m
    simp [chainCost]
  | succ k ih =>
    intro m
    have h1 : (255 : Nat) ^ (k + 1) * m = 255 * (255 ^ k * m) := by ring
    rw [h1]
    calc 255 * (255 ^ k * m) ≤ 255 * chainCost k m :=
          Nat.mul_le_mul_left 255 (ih m)
      _ ≤ 255 * (chainCost k m + 1) := Nat.mul_le_mul_left 255 (by omega)
      _ = chainCost (k + 1) m := rfl

/-- A DynamicFieldArray loop whose every iteration succeeds, consumes `s`
bytes and costs at least `c` steps: after `n` iterations the error slot
is still clean, the cursor has advanced by `n * s`, and at least `n * c`
steps were spent. -/
theorem dynLoopAux_clean (step : Nat → PacketParserErrorId → StepOut)
    (s c bound : Nat)
    (hstep : ∀ o, o + s ≤ bound →
      (step o .NoError).error = .NoError
      ∧ (step o .NoError).offset = o + s
      ∧ c ≤ (step o .NoError).cost) :
    ∀ n offset, offset + n * s ≤ bound →
      (dynLoopAux step n offset .NoError).error = .NoError
      ∧ (dynLoopAux step n offset .NoError).offset = offset + n * s
      ∧ n * c ≤ (dynLoopAux step n offset .NoError).cost := by
  intro n
  induction n with
  | zero =>
    intro offset h
    simp [dynLoopAux]
  | succ k ih =>
    intro offset h
    have hmul : (k + 1) * s = k * s + s := Nat.succ_mul k s
    have hs : offset + s ≤ bound := by
      have hks : 0 ≤ k * s := Nat.zero_le _
      omega
    obtain ⟨he, ho, hc⟩ := hstep offset hs
    have hrest : (offset + s) + k * s ≤ bound := by omega
    obtain ⟨he2, ho2, hc2⟩ := ih (offset + s) hrest
    simp only [dynLoopAux, seqOut]
    rw [ho, he]
    refine ⟨he2, ?_, ?_⟩
    · rw [ho2]
      omega
    · have := Nat.add_le_add hc hc2
      have hcm : (k + 1) * c = c + k * c := by ring
      omega

/-- Projections of the DynamicFieldArray branch of processBinary when the
size prefix is in range, expressed through the loop term. -/
theorem dyn_step_facts (data : Nat → Nat) (length w offset : Nat) (child : Field)
    (hrange : ¬ (length < offset + w)) :
    (processBinary data length (.dynamicFieldArray w child) offset).error
        = (dynLoopAux
            (fun o e =>
              if e = .NoError then bump (processBinary data length child o)
              else skipOut o e)
            (readLE data offset w) (offset + w) .NoError).error
    ∧ (processBinary data length (.dynamicFieldArray w child) offset).offset
        = (dynLoopAux
            (fun o e =>
              if e = .NoError then bump (processBinary data length child o)
              else skipOut o e)
            (readLE data offset w) (offset + w) .NoError).offset
    ∧ (processBinary data length (.dynamicFieldArray w child) offset).cost
        = (dynLoopAux
            (fun o e =>
              if e = .NoError then bump (processBinary data length child o)
              else skipOut o e)
            (readLE data offset w) (offset + w) .NoError).cost := by
  simp only [processBinary]
  rw [if_neg hrange]
  exact ⟨rfl, rfl, rfl⟩

/-- One execution of `nestedCounted d m` against an all-0xff buffer with
enough declared length decodes cleanly: every width-1 size prefix reads
count 255, the cursor advances by exactly `chainFuel d` bytes, and at
least `chainCost d m` field-processing steps are spent. -/
theorem nestedCounted_run (length : Nat) : ∀ (d m offset : Nat),
    offset + chainFuel d ≤ length →
    (processBinary (fun _ => 255) length (nestedCounted d m) offset).error
        = .NoError
    ∧ (processBinary (fun _ => 255) length (nestedCounted d m) offset).offset
        = offset + chainFuel d
    ∧ chainCost d m
        ≤ (processBinary (fun _ => 255) length (nestedCounted d m) offset).cost := by
  intro d
  induction d with
  | zero =>
    intro m offset h
    obtain ⟨he, ho, hc⟩ := flatGroups_run (fun _ => 255) length m offset
    simp only [nestedCounted, flatGroups, processBinary]
    rw [if_pos he]
    exact ⟨rfl, by simp [ho, chainFuel], by simp [hc, chainCost]⟩
  | succ k ih =>
    intro m offset h
    have hfuel : chainFuel (k + 1) = 1 + 255 * chainFuel k := rfl
    rw [hfuel] at h
    have hcount : readLE (fun _ => 255) offset 1 = 255 := by
      rw [readLE_const255]
      norm_num
    have hrange : ¬ (length < offset + 1) := by omega
    have hstep : ∀ o, o + chainFuel k ≤ length →
        ((if (PacketParserErrorId.NoError) = .NoError
          then bump (processBinary (fun _ => 255) length (nestedCounted k m) o)
          else skipOut o .NoError)).error = .NoError
        ∧ ((if (PacketParserErrorId.NoError) = .NoError
            then bump (processBinary (fun _ => 255) length (nestedCounted k m) o)
            else skipOut o .NoError)).offset = o + chainFuel k
        ∧ chainCost k m + 1
            ≤ ((if (PacketParserErrorId.NoError) = .NoError
                then bump (processBinary (fun _ => 255) length (nestedCounted k m) o)
                else skipOut o .NoError)).cost := by
      intro o ho
      obtain ⟨he, hoo, hcc⟩ := ih m o ho
      rw [if_pos rfl]
      refine ⟨by simp [bump, he], by simp [bump, hoo], ?_⟩
      simp only [bump]
      omega
    obtain ⟨hle, hlo, hlc⟩ := dynLoopAux_clean
      (fun o e =>
        if e = .NoError
        then bump (processBinary (fun _ => 255) length (nestedCounted k m) o)
        else skipOut o e)
      (chainFuel k) (chainCost k m + 1) length hstep
      (readLE (fun _ => 255) offset 1) (offset + 1)
      (by rw [hcount]; omega)
    obtain ⟨qe, qo, qc⟩ := dyn_step_facts (fun _ => 255) length 1 offset
      (nestedCounted k m) hrange
    have hrw : nestedCounted (k + 1) m = .dynamicFieldArray 1 (nestedCounted k m) := rfl
    rw [hrw, qe, qo, qc]
    refine ⟨hle, ?_, ?_⟩
    · rw [hlo, hcount, hfuel]
      omega
    · have hchain : chainCost (k + 1) m
          = readLE (fun _ => 255) offset 1 * (chainCost k m + 1) := by
        rw [hcount]
        rfl
      rw [hchain]
      exact hlc

/-- Counterexample to C9 as stated: even over grammars whose size-prefix
widths are C++-expressible (width 1 everywhere here, so every decoded
count is at most 255), no constant can bound the step count by a multiple
of (buffer length + node count): `d` nested width-1 Repeated nodes around
a Group of `m` empty Groups re-execute the m-step zero-consuming subtree
once per loop iteration, giving on the order of 255 ^ d * m steps against
a buffer of only `chainFuel d` bytes. -/
theorem claim_C9_counterexample : ¬ linearStepBound := by
  rintro ⟨c, h⟩
  have hvalid :
      sizeWidthsValidList [nestedCounted (c + 1) (chainFuel (c + 1) + c + 3)]
        = true := by
    simp [sizeWidthsValidList, sizeWidthsValid_nestedCounted]
  have hinst := h [nestedCounted (c + 1) (chainFuel (c + 1) + c + 3)] hvalid
    (fun _ => 255) (chainFuel (c + 1))
  rw [singleton_parse_cost] at hinst
  have hnodes : nodeCountList [nestedCounted (c + 1) (chainFuel (c + 1) + c + 3)]
      = (c + 1) + 1 + (chainFuel (c + 1) + c + 3) := by
    simp [nodeCountList, nodeCount_nestedCounted]
  rw [hnodes] at hinst
  obtain ⟨-, -, hcost⟩ := nestedCounted_run (chainFuel (c + 1)) (c + 1)
    (chainFuel (c + 1) + c + 3) 0 (by omega)
  have hpow := chainCost_ge (c + 1) (chainFuel (c + 1) + c + 3)
  have hc2 : 2 * c < 255 ^ (c + 1) := by
    have ha : c < 255 ^ c := Nat.lt_pow_self (by omega) c
    have hb : (255 : Nat) ^ (c + 1) = 255 * 255 ^ c := by
      rw [Nat.pow_succ]
      ring
    have h1 : 1 ≤ 255 ^ c := Nat.one_le_pow _ _ (by omega)
    omega
  have hX : chainFuel (c + 1) + ((c + 1) + 1 + (chainFuel (c + 1) + c + 3)) + 1
      = 2 * (chainFuel (c + 1) + c + 3) := by omega
  rw [hX] at hinst
  have k1 : c * (2 * (chainFuel (c + 1) + c + 3))
      = 2 * c * (chainFuel (c + 1) + c + 3) := by ring
  rw [k1] at hinst
  have hm : 0 < chainFuel (c + 1) + c + 3 := by omega
  have k2 : 2 * c * (chainFuel (c + 1) + c + 3)
      < 255 ^ (c + 1) * (chainFuel (c + 1) + c + 3) :=
    Nat.mul_lt_mul_of_pos_right hc2 hm
  have final : (processBinary (fun _ => 255) (chainFuel (c + 1))
        (nestedCounted (c + 1) (chainFuel (c + 1) + c + 3)) 0).cost + 1
      ≤ (processBinary (fun _ => 255) (chainFuel (c + 1))
        (nestedCounted (c + 1) (chainFuel (c + 1) + c + 3)) 0).cost :=
    le_trans hinst (le_trans (le_of_lt k2) (le_trans hpow hcost))
  omega

/-- C10: the result (error code, deliveries, events) of a parse call
depends only on the parser's field list and the (buffer, length)
arguments: parse resets the cursor, buffer pointer and length first, so a
reused parser object behaves identically to a freshly constructed parser
with the same fields. -/
theorem claim_C10_parse_reset (p q : PacketParser) (data : Nat → Nat)
    (length : Nat) (h : p.fields = q.fields) :
    (p.parse data length).1 = (q.parse data length).1
    ∧ (p.parse data length).1
        = ((makePacketParser p.fields).parse data length).1 := by
  constructor
  · simp [PacketParser.parse, h]
  · simp [PacketParser.parse, makePacketParser]

/-- Witness for C10 at a concrete input: a parser left in a dirty state
by an earlier call (nonzero offset, stale buffer and length) parses
exactly like a fresh parser with the same fields. -/
theorem claim_C10_witness :
    ((⟨[.valueField 2 false], fun _ => 9, 7, 5⟩ : PacketParser).parse (fun _ => 1) 4).1
        = ((⟨[.valueField 2 false], fun _ => 0, 0, 0⟩ : PacketParser).parse (fun _ => 1) 4).1
    ∧ ((⟨[.valueField 2 false], fun _ => 9, 7, 5⟩ : PacketParser).parse (fun _ => 1) 4).1
        = ((makePacketParser [.valueField 2 false]).parse (fun _ => 1) 4).1 :=
  claim_C10_parse_reset ⟨[.valueField 2 false], fun _ => 9, 7, 5⟩
    ⟨[.valueField 2 false], fun _ => 0, 0, 0⟩ (fun _ => 1) 4 rfl


-- =====================================================================
-- Claim C7: the byte-order inversion is an involution
-- =====================================================================

/-- C7: for every unsigned integer value of width 2, 4 or 8 bytes,
applying the byte-order inversion twice returns the value: the
`EndiannessInverter` is an involution on representable values. -/
theorem claim_C7_invert_involution (x : Nat) :
    (x < 2 ^ 16 → invertForWidth 2 (invertForWidth 2 x) = x)
    ∧ (x < 2 ^ 32 → invertForWidth 4 (invertForWidth 4 x) = x)
    ∧ (x < 2 ^ 64 → invertForWidth 8 (invertForWidth 8 x) = x) := by
  refine ⟨?_, ?_, ?_⟩
  · intro h
    exact call2_involution x h
  · intro h
    exact call4_involution x h
  · intro h
    exact call8_involution x h

/-- Witness for C7 at concrete values of each width. -/
theorem claim_C7_witness :
    invertForWidth 2 (invertForWidth 2 0x1234) = 0x1234
    ∧ invertForWidth 4 (invertForWidth 4 0x12345678) = 0x12345678
    ∧ invertForWidth 8 (invertForWidth 8 0x0123456789abcdef) = 0x0123456789abcdef :=
  ⟨(claim_C7_invert_involution 0x1234).1 (by decide),
   (claim_C7_invert_involution 0x12345678).2.1 (by decide),
   (claim_C7_invert_involution 0x0123456789abcdef).2.2 (by decide)⟩

end GenericPacketParser
